import Mathlib

/-!
Verification development for the Breath-Easy acoustic event classification
and decision pipeline (backend/app/services): audio normalization,
feature-vector fitting, the classifier wrapper `ModelService.predict`, and
the heuristic decision logic of `AnalysisService.analyze_audio`.
Probabilities and feature values are modelled as exact rationals.
-/

namespace BreathEasy

/-- Python dict assignment `d[k] = v` on an insertion-ordered dict:
replaces the value in place when the key exists, else appends the pair. -/
def pyDictInsert (d : List (String × ℚ)) (k : String) (v : ℚ) : List (String × ℚ) :=
  if d.any (fun p => p.1 = k) then d.map (fun p => if p.1 = k then (k, v) else p)
  else d ++ [(k, v)]

/-- Python dict read `d[k]` (also `d.get(k, 0.0)`): the value of the first
pair with key `k`, 0 when absent. -/
def pyDictGet (d : List (String × ℚ)) (k : String) : ℚ :=
  ((d.find? (fun p => p.1 = k)).map (fun p => p.2)).getD 0

/-- `np.max` / built-in `max` over a list of values (0 for an empty list,
which in the source raises instead; callers guard non-emptiness). -/
def listMax (l : List ℚ) : ℚ := (l.max?).getD 0

/-- `np.argmax`: the first index at which the maximum is attained. -/
def argmaxIdx (l : List ℚ) : Nat := l.findIdx (fun x => x = listMax l)

/-- Python `max(d, key=d.get)` over a dict: the first key (in insertion
order) whose value is maximal. -/
def pyDictMaxKey (d : List (String × ℚ)) : String :=
  ((d.find? (fun p => p.2 = listMax (d.map (fun q => q.2)))).map (fun p => p.1)).getD ""

/-- The redistribution loop `for i in resp_indices: probs[i] += inc`. -/
def addAt (inc : ℚ) : List ℚ → List Nat → List ℚ
  | l, [] => l
  | l, i :: is => addAt inc (l.set i (l.getD i 0 + inc)) is

/-- `probs /= np.sum(probs)`. -/
def normalizeL (l : List ℚ) : List ℚ := l.map (fun x => x / l.sum)

/-- Arithmetic mean `np.mean`. -/
def meanL (l : List ℚ) : ℚ := l.sum / l.length

/-- Population variance `np.var` (mean squared deviation from the mean). -/
def npVar (l : List ℚ) : ℚ := ((l.map (fun x => (x - meanL l) ^ 2)).sum) / l.length

/-- Python `round(q, 2)` as used on probabilities (round half towards
positive, scaled by 100); only reachable through dead code below. -/
def pyRound2 (q : ℚ) : ℚ := ((⌊q * 100 + 1 / 2⌋ : ℤ) : ℚ) / 100

/-- The inverse label map `ModelService.inv_label_map` loaded from
`label_map.json`: insertion-ordered (index, readable name) pairs. -/
abbrev LabelMap := List (Nat × String)

/-- `inv_label_map.get(i)`. -/
def lmGet (lm : LabelMap) (i : Nat) : Option String :=
  (lm.find? (fun p => p.1 = i)).map (fun p => p.2)

/-- `next((i for i, v in inv_label_map.items() if v == "Healthy"), None)`. -/
def healthyIdx (lm : LabelMap) : Option Nat :=
  (lm.find? (fun p => p.2 = "Healthy")).map (fun p => p.1)

/-- The respiratory class names of `_adjust_predictions_with_cough_indicators`. -/
def respiratoryClasses : List String :=
  ["Asthma", "Bronchiectasis", "Bronchiolitis", "COPD", "LRTI", "Pneumonia", "URTI"]

/-- `[i for i, v in inv_label_map.items() if v in [...]]`. -/
def respIndices (lm : LabelMap) : List Nat :=
  (lm.filter (fun p => respiratoryClasses.contains p.2)).map (fun p => p.1)

/-- The named acoustic indicators read out of the features dict with
`features.get(name, 0.0)` (fields keep the source key names). -/
structure Indicators where
  cough_event_ratio : ℚ := 0
  cough_frequency_ratio : ℚ := 0
  harsh_sound_ratio : ℚ := 0
  onset_rate : ℚ := 0
  energy_variation : ℚ := 0
  signal_strength : ℚ := 0

/-- The `cough_score` local of
`ModelService._adjust_predictions_with_cough_indicators`. -/
def coughScore (f : Indicators) : ℚ :=
  min ((f.cough_event_ratio / (8 / 100)) * (25 / 100)
      + (f.cough_frequency_ratio / (8 / 10)) * (25 / 100)
      + min (f.energy_variation / 2) 1 * (3 / 10)
      + min (f.onset_rate / 3) 1 * (2 / 10)) 1

/-- The `normal_score` local of the same method. -/
def normalScore (f : Indicators) : ℚ :=
  min ((1 - min (f.cough_event_ratio / (8 / 100)) 1) * (25 / 100)
      + (1 - min (f.harsh_sound_ratio / (2 / 10)) 1) * (25 / 100)
      + min (f.signal_strength / (3 / 1000)) 1 * (25 / 100)
      + (1 - min (f.energy_variation / 2) 1) * (25 / 100)) 1

/-- `ModelService._adjust_predictions_with_cough_indicators`: computes a
cough score and a normal score from the indicators, optionally reweights
the `Healthy` probability (redistributing 20% of it over the respiratory
classes, or capping a small boost), then renormalizes. -/
def adjustProbs (lm : LabelMap) (f : Indicators) (probs : List ℚ) : List ℚ :=
  let probs1 :=
    match healthyIdx lm with
    | none => probs
    | some h =>
      if coughScore f ≥ 85 / 100 then
        let healthy_prob := probs.getD h 0
        let p1 := probs.set h (healthy_prob * (8 / 10))
        let redistribute := healthy_prob * (2 / 10)
        let ri := respIndices lm
        if ri.isEmpty then p1 else addAt (redistribute / ri.length) p1 ri
      else if normalScore f ≥ 8 / 10 then
        probs.set h (min (probs.getD h 0 + 5 / 100) (8 / 10))
      else probs
  normalizeL probs1

/-- `self.inv_label_map.get(i, f"class_{i}")`, the key of probability `i`
in the returned class probability dict. -/
def keyOf (lm : LabelMap) (i : Nat) : String :=
  (lmGet lm i).getD ("class_" ++ toString i)

/-- A Python dict built by inserting the listed pairs in order. -/
def dictOfPairs (kvs : List (String × ℚ)) : List (String × ℚ) :=
  kvs.foldl (fun d p => pyDictInsert d p.1 p.2) []

/-- `{inv_label_map.get(i, f"class_{i}"): float(p) for i, p in enumerate(adjusted)}`. -/
def buildClassProbs (lm : LabelMap) (l : List ℚ) : List (String × ℚ) :=
  dictOfPairs (l.enum.map (fun p => (keyOf lm p.1, p.2)))

/-- The record returned by `ModelService.predict`. -/
structure Prediction where
  predicted_class : String
  confidence : ℚ
  class_probs : List (String × ℚ)
deriving DecidableEq

/-- `ModelService.predict` after the classifier produced the raw
probability vector `praw = model.predict_proba([fv])[0]`: indicator-driven
adjustment, renormalization, argmax readout and label mapping. -/
def predictM (lm : LabelMap) (f : Indicators) (praw : List ℚ) : Prediction :=
  let adjusted := adjustProbs lm f praw
  let adjusted : List ℚ := normalizeL adjusted
  { confidence := listMax adjusted
    predicted_class := (lmGet lm (argmaxIdx adjusted)).getD "Unknown"
    class_probs := buildClassProbs lm adjusted }

/-- The features dict handed from `extract_features` to
`AnalysisService.analyze_audio`: the 120-entry model feature vector, the
clip duration, the named indicators and the optional transcription. -/
structure ExtractedFeatures where
  model_features : List ℚ
  duration : ℚ
  ind : Indicators
  transcription : String := ""

/-- `np.var(features['model_features'][88:93]) if len > 1 else 0`. -/
def energyVarianceOf (mf : List ℚ) : ℚ :=
  let energy_features := (mf.drop 88).take 5
  if energy_features.length > 1 then npVar energy_features else 0

/-- `np.max(features['model_features'][93:100]) if len > 0 else 0`. -/
def spectralSharpnessOf (mf : List ℚ) : ℚ :=
  let spectral_features := (mf.drop 93).take 7
  if spectral_features.length > 0 then listMax spectral_features else 0

/-- The forced-abnormal cough rules of `analyze_audio` (task-specific
energy-variance and spectral-sharpness thresholds). -/
def forcedAbnormalStep (task : String) (ev ss dur : ℚ) (lc : String × ℚ) : String × ℚ :=
  if task = "speech" then
    if ev > 500000 ∧ ss > 12 / 10 ∧ dur > 5 then ("abnormal", 85 / 100)
    else if lc.1 = "normal" ∧ lc.2 < 85 / 100 ∧ ev > 500000 ∧ ss > 12 / 10 then
      ("abnormal", 85 / 100)
    else lc
  else
    if ev > 700000 ∧ ss > 9 / 10 ∧ dur > 4 then ("abnormal", 85 / 100)
    else if lc.1 = "normal" ∧ lc.2 < 85 / 100 ∧ ev > 700000 ∧ ss > 9 / 10 then
      ("abnormal", 85 / 100)
    else lc

/-- The ultra-strict crackles gate: a `crackles` label below confidence
0.9 is re-labelled `normal` with confidence 0.78. -/
def cracklesGateStep (lc : String × ℚ) : String × ℚ :=
  if lc.1 = "crackles" ∧ lc.2 < 9 / 10 then ("normal", 78 / 100) else lc

/-- The certainty rule: when the model's own predicted class is
`crackles` and the current confidence is exactly 1.0, keep `crackles`. -/
def cracklesCertainStep (predicted_class : String) (lc : String × ℚ) : String × ℚ :=
  if predicted_class = "crackles" ∧ lc.2 = 1 then ("crackles", 1) else lc

/-- The additive cough indicator (0.2 per threshold exceeded). -/
def coughIndicator (ev ss : ℚ) : ℚ :=
  (if ev > 400000 then (2 / 10 : ℚ) else 0) + (if ss > 7 / 10 then (2 / 10 : ℚ) else 0)

/-- The indicator-driven forced re-label: at indicator ≥ 0.3 the original
model argmax decides between forced `crackles` and forced `abnormal`;
it also reassigns `original_label`. -/
def coughIndicatorStep (ci : ℚ) (class_probs : List (String × ℚ))
    (lc : String × ℚ) (orig : String) : (String × ℚ) × String :=
  if ci ≥ 3 / 10 then
    let original_label := pyDictMaxKey class_probs
    (if original_label = "crackles" then ("crackles", 85 / 100) else ("abnormal", 85 / 100),
      original_label)
  else (lc, orig)

/-- The conservative forced-abnormal mutation of the class-probability
dict at indicator ≥ 0.5 (sets `abnormal` to 0.85 and scales the other
values by 0.15, rounded to 2 decimals, without renormalizing). -/
def conservativeStep (ci : ℚ) (label : String)
    (class_probs : List (String × ℚ)) : List (String × ℚ) :=
  if ci ≥ 5 / 10 ∧ label = "normal" then
    (pyDictInsert class_probs "abnormal" (85 / 100)).map
      (fun p => if p.1 = "abnormal" then p else (p.1, pyRound2 (p.2 * (15 / 100))))
  else class_probs

/-- The stricter post-processing preferring `normal` when the `Healthy`
probability exceeds 0.1 and the top disease-class probability is below
0.85; errors (ValueError on `max` of an empty sequence) when `Healthy`
is the only key. -/
def healthyStep (class_probs : List (String × ℚ)) (lc : String × ℚ) :
    Except String (String × ℚ) :=
  if class_probs.any (fun p => p.1 = "Healthy") then
    let healthy_prob := pyDictGet class_probs "Healthy"
    let disease_classes := (class_probs.map (fun p => p.1)).filter (fun k => k ≠ "Healthy")
    if disease_classes.isEmpty then Except.error "max() arg is an empty sequence"
    else
      let top_disease_prob := listMax (disease_classes.map (fun k => pyDictGet class_probs k))
      if healthy_prob > 1 / 10 ∧ top_disease_prob < 85 / 100 then
        Except.ok ("normal", healthy_prob)
      else Except.ok lc
  else Except.ok lc

/-- The symptom-to-disease heuristic mapping of `analyze_audio`. -/
def diseaseMap (label : String) : List String :=
  if label = "cough" then ["URTI", "Bronchitis", "Post-COVID irritation"]
  else if label = "heavy_breathing" then ["COPD", "Asthma", "Pneumonia"]
  else if label = "throat_clearing" then ["Post-COVID", "Allergy", "Reflux"]
  else if label = "abnormal" then ["Bronchiectasis", "COPD", "Pneumonia"]
  else if label = "normal" then ["Healthy"]
  else ["Unspecified"]

/-- The success-path result dict of `analyze_audio` (the fields the
claims are about). -/
structure AnalysisResult where
  predictions : List (String × ℚ)
  label : String
  confidence : ℚ
  possible_conditions : List String
  source : String
  original_label : String
  low_confidence : Bool
deriving DecidableEq

/-- The label/confidence decision chain of `analyze_audio` between the
model prediction and the result dict: initial argmax, forced abnormal,
crackles gating, certainty rule, cough-indicator override, conservative
dict mutation, and the Healthy post-processing; errors exactly where the
source raises. `decideParts` is the straight-line portion before the
Healthy post-processing, returning ((label, confidence), original label,
class probs). -/
def decideParts (task : String) (feat : ExtractedFeatures) (pred : Prediction) :
    (String × ℚ) × String × List (String × ℚ) :=
  let label := pyDictMaxKey pred.class_probs
  let confidence := pyDictGet pred.class_probs label
  let ev := energyVarianceOf feat.model_features
  let ss := spectralSharpnessOf feat.model_features
  let lc1 := forcedAbnormalStep task ev ss feat.duration (label, confidence)
  let lc2 := cracklesGateStep lc1
  let lc3 := cracklesCertainStep pred.predicted_class lc2
  let ci := coughIndicator ev ss
  let step4 := coughIndicatorStep ci pred.class_probs lc3 label
  (step4.1, step4.2, conservativeStep ci step4.1.1 pred.class_probs)

def decideCore (task : String) (feat : ExtractedFeatures) (pred : Prediction) :
    Except String (String × ℚ × String × List (String × ℚ)) :=
  if pred.class_probs.isEmpty then Except.error "max() arg is an empty sequence"
  else
    let parts := decideParts task feat pred
    match healthyStep parts.2.2 parts.1 with
    | Except.error e => Except.error e
    | Except.ok lc5 => Except.ok (lc5.1, lc5.2, parts.2.1, parts.2.2)

/-- The result dict built at the end of the `analyze_audio` success path. -/
def decideResult (task : String) (feat : ExtractedFeatures) (pred : Prediction)
    (preferHF : Bool) : Except String AnalysisResult :=
  (decideCore task feat pred).map (fun r =>
    { predictions := r.2.2.2
      label := r.1
      confidence := r.2.1
      possible_conditions := diseaseMap (r.1.toLower)
      source := if preferHF then "huggingface" else "local"
      original_label := r.2.2.1
      low_confidence := decide (r.2.1 < (3 / 4 : ℚ)) })

/-- The input of `normalize_audio` as the pipeline observes it: whether
the file exists, whether the conversion (ffmpeg or the wave fallback)
succeeds, and the duration of the converted output. -/
structure AudioInput where
  present : Bool
  convertOk : Bool
  normDuration : ℚ

/-- The outcome of `normalize_audio`: the returned `(path, duration)` is
abstracted to the duration; `tempCreated` records whether the normalized
temp file was written, `tempDeleted` whether it was removed again inside
`normalize_audio`'s own error handler. -/
structure NormOutcome where
  result : Except String ℚ
  tempCreated : Bool
  tempDeleted : Bool

/-- `normalize_audio`: missing input errors before the temp file exists;
a failed conversion never writes it; a duration below `min_duration`
raises `AudioNormalizationError` and the handler removes the file. -/
def normalize_audio (a : AudioInput) (min_duration : ℚ) : NormOutcome :=
  if ¬ a.present then
    { result := Except.error "Input file not found", tempCreated := false, tempDeleted := false }
  else if ¬ a.convertOk then
    { result := Except.error "Audio normalization failed", tempCreated := false,
      tempDeleted := false }
  else if a.normDuration < min_duration then
    { result := Except.error "Audio too short", tempCreated := true, tempDeleted := true }
  else
    { result := Except.ok a.normDuration, tempCreated := true, tempDeleted := false }

/-- What `analyze_audio` hands back to its caller: the HTTP 400 raised on
`AudioNormalizationError`, the returned demo-fallback dict (label
`clear`, source `demo_fallback`) produced by the generic exception
handler, or the success result dict. -/
inductive Outcome
  | httpError (status : Nat) (detail : String)
  | demoFallback
  | success (r : AnalysisResult)
deriving DecidableEq

/-- `Outcome.isHardFailure`: whether the pipeline raised out of
`analyze_audio` (instead of returning a dict). -/
def Outcome.isHardFailure : Outcome → Bool
  | Outcome.httpError _ _ => true
  | _ => false

/-- One `analyze_audio` invocation with its resource bookkeeping:
whether the normalized temp file was created, whether it was deleted by
the time `analyze_audio` finished, and whether a feature vector was
produced by `extract_features`. -/
structure PipelineTrace where
  outcome : Outcome
  tempCreated : Bool
  tempDeleted : Bool
  featuresComputed : Bool

/-- `AnalysisService.analyze_audio` control flow (model loaded): audio
normalization, feature extraction (an oracle, since it calls external
audio libraries: it either raises or yields the features dict), the
classifier raw output `praw` for the extracted vector, cleanup of the
normalized file (which the source performs only after `predict`
returned), the decision chain, and the two exception handlers. -/
def analyze_audio (a : AudioInput) (task : String) (min_duration : ℚ)
    (extractResult : Except String ExtractedFeatures) (lm : LabelMap)
    (praw : List ℚ) (preferHF : Bool) : PipelineTrace :=
  let n := normalize_audio a min_duration
  match n.result with
  | Except.error e =>
    { outcome := Outcome.httpError 400 e, tempCreated := n.tempCreated,
      tempDeleted := n.tempDeleted, featuresComputed := false }
  | Except.ok _dur =>
    match extractResult with
    | Except.error _ =>
      { outcome := Outcome.demoFallback, tempCreated := n.tempCreated,
        tempDeleted := false, featuresComputed := false }
    | Except.ok feat =>
      if praw.isEmpty then
        { outcome := Outcome.demoFallback, tempCreated := n.tempCreated,
          tempDeleted := false, featuresComputed := true }
      else
        let pred := predictM lm feat.ind praw
        match decideResult task feat pred preferHF with
        | Except.error _ =>
          { outcome := Outcome.demoFallback, tempCreated := n.tempCreated,
            tempDeleted := true, featuresComputed := true }
        | Except.ok r =>
          { outcome := Outcome.success r, tempCreated := n.tempCreated,
            tempDeleted := true, featuresComputed := true }

/-- A value of the feature pipeline before sanitization: a finite float
or one of the non-finite IEEE values that `np.nan_to_num` replaces. -/
inductive Val
  | finite (q : ℚ)
  | nan
  | posinf
  | neginf
deriving DecidableEq

/-- `np.nan_to_num(x, nan=0.0, posinf=1.0, neginf=-1.0)` on one value. -/
def nanToNum : Val → ℚ
  | Val.finite q => q
  | Val.nan => 0
  | Val.posinf => 1
  | Val.neginf => -1

/-- Whether a value is finite (no NaN, no Inf). -/
def Val.isFinite : Val → Bool
  | Val.finite _ => true
  | _ => false

/-- The three feature blocks computed before length fitting in
`extract_features` (OpenSMILE functionals, the task-weighted spectral
block, the basic+cough block), plus whether the `np.concatenate` call
failed (its handler falls back to the OpenSMILE block alone), the
indicators and the duration stored in the features dict. -/
structure RunInput where
  opensmile_features : List Val
  additional_features : List Val
  basic_features : List Val
  concatFailed : Bool
  ind : Indicators
  duration : ℚ

/-- `combined_features`: the concatenation, or the OpenSMILE fallback
when concatenation raised. -/
def combineFeatures (r : RunInput) : List Val :=
  if r.concatFailed then r.opensmile_features
  else r.opensmile_features ++ r.additional_features ++ r.basic_features

/-- The length-fitting logic of `extract_features`: over 120 features it
reselects 88 OpenSMILE + 32 additional values, fills from the basic
block and zero-pads or truncates to exactly 120; under 120 it pads with
the random noise draw `noise` (`np.random.normal(0, 0.001, padding)`);
at 120 it passes through. -/
def selectFeatures (r : RunInput) (noise : Nat → ℚ) : List Val :=
  let combined := combineFeatures r
  if combined.length > 120 then
    let opensmile_count := min 88 r.opensmile_features.length
    let additional_count := min 32 r.additional_features.length
    let mf := r.opensmile_features.take opensmile_count
      ++ r.additional_features.take additional_count
    let remaining_slots := 120 - mf.length
    let mf :=
      if remaining_slots > 0 ∧ ¬ r.basic_features.isEmpty then
        mf ++ r.basic_features.take (min remaining_slots r.basic_features.length)
      else mf
    if mf.length < 120 then mf ++ List.replicate (120 - mf.length) (Val.finite 0)
    else mf.take 120
  else if combined.length < 120 then
    combined ++ (List.range (120 - combined.length)).map (fun i => Val.finite (noise i))
  else combined

/-- `np.nan_to_num(model_features, nan=0.0, posinf=1.0, neginf=-1.0)`. -/
def sanitize (l : List Val) : List Val :=
  l.map (fun v => Val.finite (nanToNum v))

/-- The final standardization `(x - mean) / (std + 1e-6)`; `sigma` stands
for `np.std(l)`, handed in as a parameter because the square root of the
variance is irrational in general (theorems quantify over it, concrete
runs supply the exact value together with `sigma ^ 2 = npVar l`). -/
def standardize (l : List ℚ) (sigma : ℚ) : List ℚ :=
  l.map (fun x => (x - meanL l) / (sigma + 1 / 1000000))

/-- `ModelService._prepare_features`: zero-pad or truncate to 120. -/
def prepareFeatures (mf : List ℚ) : List ℚ :=
  if mf.length < 120 then mf ++ List.replicate (120 - mf.length) 0
  else if mf.length > 120 then mf.take 120
  else mf

/-- The feature vector stored under `model_features` (fitted, sanitized,
standardized), together with the rest of the features dict. -/
def extractModel (r : RunInput) (noise : Nat → ℚ) (sigma : ℚ) : ExtractedFeatures :=
  { model_features := standardize ((selectFeatures r noise).map nanToNum) sigma
    duration := r.duration
    ind := r.ind }

/-- One full run of feature fitting, classification and decision, with
the loaded classifier as the function `model` from the prepared feature
vector to `predict_proba` output. -/
def runPipeline (model : List ℚ → List ℚ) (lm : LabelMap) (task : String)
    (preferHF : Bool) (r : RunInput) (noise : Nat → ℚ) (sigma : ℚ) :
    Except String AnalysisResult :=
  let feat := extractModel r noise sigma
  let praw := model (prepareFeatures feat.model_features)
  decideResult task feat (predictM lm feat.ind praw) preferHF

/-! Helper lemmas about the list and dict primitives. -/

lemma sum_map_div (l : List ℚ) (s : ℚ) : (l.map (fun x => x / s)).sum = l.sum / s := by
  induction l with
  | nil => simp
  | cons a t ih => simp [ih, add_div]

lemma length_normalizeL (l : List ℚ) : (normalizeL l).length = l.length := by
  simp [normalizeL]

lemma sum_normalizeL (l : List ℚ) (h : l.sum ≠ 0) : (normalizeL l).sum = 1 := by
  simp [normalizeL, sum_map_div, div_self h]

lemma normalizeL_of_sum_one (l : List ℚ) (h : l.sum = 1) : normalizeL l = l := by
  simp only [normalizeL, h, div_one]
  exact List.map_id l

lemma mem_normalizeL_nonneg (l : List ℚ) (hnn : ∀ x ∈ l, 0 ≤ x) :
    ∀ x ∈ normalizeL l, 0 ≤ x := by
  intro x hx
  simp only [normalizeL, List.mem_map] at hx
  obtain ⟨y, hy, rfl⟩ := hx
  exact div_nonneg (hnn y hy) (List.sum_nonneg hnn)

lemma getD_zero_or_mem (l : List ℚ) (i : Nat) : l.getD i 0 = 0 ∨ l.getD i 0 ∈ l := by
  rw [List.getD_eq_getElem?_getD]
  cases h : l[i]? with
  | none => simp
  | some a =>
    right
    obtain ⟨hlt, rfl⟩ := List.getElem?_eq_some_iff.mp h
    simp [List.getElem_mem]

lemma getD_nonneg (l : List ℚ) (i : Nat) (hnn : ∀ x ∈ l, 0 ≤ x) : 0 ≤ l.getD i 0 := by
  rcases getD_zero_or_mem l i with h | h
  · rw [h]
  · exact hnn _ h

lemma getD_le_sum (l : List ℚ) (i : Nat) (hnn : ∀ x ∈ l, 0 ≤ x) : l.getD i 0 ≤ l.sum := by
  rcases getD_zero_or_mem l i with h | h
  · rw [h]; exact List.sum_nonneg hnn
  · exact List.single_le_sum hnn _ h

lemma sum_set_eq (l : List ℚ) (i : Nat) (a : ℚ) (h : i < l.length) :
    (l.set i a).sum = l.sum - l.getD i 0 + a := by
  induction l generalizing i with
  | nil => simp at h
  | cons b t ih =>
    cases i with
    | zero => simp [List.getD_cons_zero]; ring
    | succ n =>
      have hn : n < t.length := by simpa using h
      simp only [List.set_cons_succ, List.sum_cons, List.getD_cons_succ, ih n hn]
      ring

lemma nonneg_set (l : List ℚ) (i : Nat) (a : ℚ) (ha : 0 ≤ a) (hnn : ∀ x ∈ l, 0 ≤ x) :
    ∀ x ∈ l.set i a, 0 ≤ x := by
  intro x hx
  rcases List.mem_or_eq_of_mem_set hx with h | h
  · exact hnn x h
  · rw [h]; exact ha

lemma length_addAt (inc : ℚ) (l : List ℚ) (is : List Nat) :
    (addAt inc l is).length = l.length := by
  induction is generalizing l with
  | nil => simp [addAt]
  | cons i t ih => simp [addAt, ih, List.length_set]

lemma sum_addAt (inc : ℚ) (l : List ℚ) (is : List Nat) (h : ∀ i ∈ is, i < l.length) :
    (addAt inc l is).sum = l.sum + inc * is.length := by
  induction is generalizing l with
  | nil => simp [addAt]
  | cons i t ih =>
    have hi : i < l.length := h i (List.mem_cons_self i t)
    have ht : ∀ j ∈ t, j < (l.set i (l.getD i 0 + inc)).length := by
      intro j hj
      rw [List.length_set]
      exact h j (List.mem_cons_of_mem i hj)
    rw [addAt, ih _ ht, sum_set_eq l i _ hi]
    push_cast [List.length_cons]
    ring

lemma nonneg_addAt (inc : ℚ) (l : List ℚ) (is : List Nat) (h0 : 0 ≤ inc)
    (hnn : ∀ x ∈ l, 0 ≤ x) : ∀ x ∈ addAt inc l is, 0 ≤ x := by
  induction is generalizing l with
  | nil => simpa [addAt] using hnn
  | cons i t ih =>
    rw [addAt]
    exact ih _ (nonneg_set l i _ (add_nonneg (getD_nonneg l i hnn) h0) hnn)

lemma foldl_max_spec (t : List ℚ) : ∀ a : ℚ,
    (t.foldl max a = a ∨ t.foldl max a ∈ t) ∧ a ≤ t.foldl max a ∧
      ∀ x ∈ t, x ≤ t.foldl max a := by
  induction t with
  | nil => intro a; simp
  | cons b t ih =>
    intro a
    obtain ⟨hmem, hle, hall⟩ := ih (max a b)
    refine ⟨?_, ?_, ?_⟩
    · rcases hmem with h | h
      · rcases max_choice a b with hm | hm
        · left; rw [List.foldl_cons, h, hm]
        · right; rw [List.foldl_cons, h, hm]; exact List.mem_cons_self b t
      · right; exact List.mem_cons_of_mem b h
    · exact le_trans (le_max_left a b) hle
    · intro x hx
      rcases List.mem_cons.mp hx with rfl | hx
      · exact le_trans (le_max_right a x) hle
      · exact hall x hx

lemma listMax_spec (l : List ℚ) (h : l ≠ []) :
    listMax l ∈ l ∧ ∀ x ∈ l, x ≤ listMax l := by
  cases l with
  | nil => exact absurd rfl h
  | cons a t =>
    have hmax : listMax (a :: t) = t.foldl max a := by
      simp [listMax, List.max?]
    obtain ⟨hmem, hle, hall⟩ := foldl_max_spec t a
    constructor
    · rw [hmax]
      rcases hmem with h1 | h1
      · rw [h1]; exact List.mem_cons_self a t
      · exact List.mem_cons_of_mem a h1
    · intro x hx
      rw [hmax]
      rcases List.mem_cons.mp hx with rfl | hx
      · exact hle
      · exact hall x hx

lemma getD_findIdx_of_exists (l : List ℚ) (p : ℚ → Bool) (h : ∃ x ∈ l, p x = true) :
    p (l.getD (l.findIdx p) 0) = true := by
  induction l with
  | nil => simp at h
  | cons a t ih =>
    by_cases ha : p a = true
    · simp [List.findIdx_cons, ha]
    · have ht : ∃ x ∈ t, p x = true := by
        obtain ⟨x, hx, hpx⟩ := h
        rcases List.mem_cons.mp hx with rfl | hx
        · exact absurd hpx ha
        · exact ⟨x, hx, hpx⟩
      simpa [List.findIdx_cons, ha] using ih ht

lemma argmaxIdx_getD (l : List ℚ) (h : l ≠ []) : l.getD (argmaxIdx l) 0 = listMax l := by
  have hmem := (listMax_spec l h).1
  have := getD_findIdx_of_exists l (fun x => x = listMax l) ⟨listMax l, hmem, by simp⟩
  simpa [argmaxIdx] using this

lemma pyDictGet_zero_or_mem (d : List (String × ℚ)) (k : String) :
    pyDictGet d k = 0 ∨ ∃ p ∈ d, pyDictGet d k = p.2 := by
  unfold pyDictGet
  cases h : d.find? (fun p => p.1 = k) with
  | none => left; simp
  | some p => right; exact ⟨p, List.mem_of_find?_eq_some h, by simp⟩

lemma pyDictInsert_append (d : List (String × ℚ)) (k : String) (v : ℚ)
    (h : d.any (fun p => p.1 = k) = false) : pyDictInsert d k v = d ++ [(k, v)] := by
  simp only [pyDictInsert, h]
  simp

lemma foldl_insert_eq_append (kvs : List (String × ℚ)) : ∀ d : List (String × ℚ),
    (∀ p ∈ kvs, ∀ q ∈ d, q.1 ≠ p.1) → kvs.Pairwise (fun p q => p.1 ≠ q.1) →
    kvs.foldl (fun d p => pyDictInsert d p.1 p.2) d = d ++ kvs := by
  induction kvs with
  | nil => intro d _ _; simp
  | cons p t ih =>
    intro d hdisj hpair
    have hnot : d.any (fun q => q.1 = p.1) = false := by
      rw [Bool.eq_false_iff]
      intro hany
      obtain ⟨q, hq, hq1⟩ := List.any_eq_true.mp hany
      exact hdisj p (List.mem_cons_self p t) q hq (by simpa using hq1)
    rw [List.foldl_cons]
    show t.foldl (fun d p => pyDictInsert d p.1 p.2) (pyDictInsert d p.1 p.2) = d ++ p :: t
    rw [pyDictInsert_append d p.1 p.2 hnot, ih (d ++ [(p.1, p.2)]) ?_ (List.Pairwise.of_cons hpair)]
    · simp
    · intro p' hp' q hq
      rcases List.mem_append.mp hq with hq | hq
      · exact hdisj p' (List.mem_cons_of_mem p hp') q hq
      · have : q = (p.1, p.2) := by simpa using hq
        rw [this]
        exact (List.pairwise_cons.mp hpair).1 p' hp'

lemma dictOfPairs_eq_self (kvs : List (String × ℚ))
    (hpair : kvs.Pairwise (fun p q => p.1 ≠ q.1)) : dictOfPairs kvs = kvs := by
  have := foldl_insert_eq_append kvs [] (by intro p _ q hq; simp at hq) hpair
  simpa [dictOfPairs] using this

lemma buildClassProbs_eq (lm : LabelMap) (l : List ℚ)
    (hinj : ∀ i < l.length, ∀ j < l.length, keyOf lm i = keyOf lm j → i = j) :
    buildClassProbs lm l = l.enum.map (fun p => (keyOf lm p.1, p.2)) := by
  apply dictOfPairs_eq_self
  rw [List.pairwise_map]
  have hfst : l.enum.Pairwise (fun a b => a.1 ≠ b.1) := by
    apply List.pairwise_map.mp
    rw [List.enum_map_fst]
    exact List.nodup_range l.length
  apply hfst.imp_of_mem
  intro a b ha hb hab
  have haa : a.1 < l.length := by
    have := List.mem_map_of_mem Prod.fst ha
    rw [List.enum_map_fst] at this
    exact List.mem_range.mp this
  have hbb : b.1 < l.length := by
    have := List.mem_map_of_mem Prod.fst hb
    rw [List.enum_map_fst] at this
    exact List.mem_range.mp this
  intro hkey
  exact hab (hinj a.1 haa b.1 hbb hkey)

lemma values_buildClassProbs (lm : LabelMap) (l : List ℚ)
    (hinj : ∀ i < l.length, ∀ j < l.length, keyOf lm i = keyOf lm j → i = j) :
    (buildClassProbs lm l).map (fun p => p.2) = l := by
  rw [buildClassProbs_eq lm l hinj, List.map_map]
  exact List.enum_map_snd l

lemma foldl_insert_preserves (P : ℚ → Prop) :
    ∀ (kvs d : List (String × ℚ)), (∀ q ∈ d, P q.2) → (∀ q ∈ kvs, P q.2) →
    ∀ q ∈ kvs.foldl (fun d p => pyDictInsert d p.1 p.2) d, P q.2 := by
  intro kvs
  induction kvs with
  | nil => intro d hd _ q hq; exact hd q hq
  | cons p t ih =>
    intro d hd hkv q hq
    rw [List.foldl_cons] at hq
    refine ih (pyDictInsert d p.1 p.2) ?_ (fun q' hq' => hkv q' (List.mem_cons_of_mem p hq')) q hq
    intro q' hq'
    unfold pyDictInsert at hq'
    split at hq'
    · obtain ⟨q0, hq0, hq0eq⟩ := List.mem_map.mp hq'
      by_cases h0 : q0.1 = p.1
      · rw [if_pos h0] at hq0eq
        rw [← hq0eq]
        exact hkv p (List.mem_cons_self p t)
      · rw [if_neg h0] at hq0eq
        rw [← hq0eq]
        exact hd q0 hq0
    · rcases List.mem_append.mp hq' with h0 | h0
      · exact hd q' h0
      · have : q' = (p.1, p.2) := by simpa using h0
        rw [this]
        exact hkv p (List.mem_cons_self p t)

lemma mem_values_buildClassProbs (lm : LabelMap) (l : List ℚ) :
    ∀ q ∈ buildClassProbs lm l, q.2 ∈ l := by
  intro q hq
  refine foldl_insert_preserves (· ∈ l) _ [] (by simp) ?_ q hq
  intro q' hq'
  obtain ⟨p, hp, rfl⟩ := List.mem_map.mp hq'
  have := List.mem_map_of_mem Prod.snd hp
  rwa [List.enum_map_snd] at this

/-! Facts about the probability adjustment in `ModelService.predict`. -/

lemma healthyIdx_lt (lm : LabelMap) (h : Nat) (praw : List ℚ)
    (hlm : ∀ p ∈ lm, p.1 < praw.length) (hh : healthyIdx lm = some h) :
    h < praw.length := by
  unfold healthyIdx at hh
  rw [Option.map_eq_some'] at hh
  obtain ⟨p, hp, rfl⟩ := hh
  exact hlm p (List.mem_of_find?_eq_some hp)

lemma respIndices_lt (lm : LabelMap) (praw : List ℚ)
    (hlm : ∀ p ∈ lm, p.1 < praw.length) : ∀ i ∈ respIndices lm, i < praw.length := by
  intro i hi
  unfold respIndices at hi
  obtain ⟨p, hp, rfl⟩ := List.mem_map.mp hi
  exact hlm p (List.mem_of_mem_filter hp)

lemma adjustProbs_sum_one (lm : LabelMap) (f : Indicators) (praw : List ℚ)
    (hnn : ∀ x ∈ praw, 0 ≤ x) (hsum : praw.sum = 1)
    (hlm : ∀ p ∈ lm, p.1 < praw.length) :
    (adjustProbs lm f praw).sum = 1 ∧ (∀ x ∈ adjustProbs lm f praw, 0 ≤ x) ∧
      (adjustProbs lm f praw).length = praw.length := by
  have key : ∀ l : List ℚ, (∀ x ∈ l, 0 ≤ x) → 0 < l.sum → l.length = praw.length →
      (normalizeL l).sum = 1 ∧ (∀ x ∈ normalizeL l, 0 ≤ x) ∧
        (normalizeL l).length = praw.length := by
    intro l h1 h2 h3
    exact ⟨sum_normalizeL l (ne_of_gt h2), mem_normalizeL_nonneg l h1,
      by rw [length_normalizeL, h3]⟩
  unfold adjustProbs
  rcases hh : healthyIdx lm with _ | h
  · dsimp only
    exact key praw hnn (by rw [hsum]; norm_num) rfl
  · have hlt : h < praw.length := healthyIdx_lt lm h praw hlm hh
    have hp0 : 0 ≤ praw.getD h 0 := getD_nonneg praw h hnn
    have hp1 : praw.getD h 0 ≤ 1 := by
      have := getD_le_sum praw h hnn
      rwa [hsum] at this
    dsimp only
    split
    · -- cough branch
      split
      · -- respIndices empty
        apply key
        · exact nonneg_set praw h _ (by positivity) hnn
        · rw [sum_set_eq praw h _ hlt, hsum]
          nlinarith
        · exact List.length_set praw h _
      · -- respIndices nonempty: full redistribution restores the sum
        rename_i hriE
        have hri : respIndices lm ≠ [] := by
          simpa [List.isEmpty_iff] using hriE
        have hn0 : ((respIndices lm).length : ℚ) ≠ 0 := by
          simpa using hri
        have hinc : 0 ≤ praw.getD h 0 * (2 / 10) / ((respIndices lm).length : ℚ) := by
          positivity
        apply key
        · exact nonneg_addAt _ _ _ hinc (nonneg_set praw h _ (by positivity) hnn)
        · rw [sum_addAt _ _ _ ?bound, sum_set_eq praw h _ hlt, hsum,
            div_mul_cancel₀ _ hn0]
          · nlinarith
          case bound =>
            intro i hi
            rw [List.length_set]
            exact respIndices_lt lm praw hlm i hi
        · rw [length_addAt, List.length_set]
    · -- normal-score branch
      split
      · apply key
        · refine nonneg_set praw h _ (le_min (by positivity) (by norm_num)) hnn
        · rw [sum_set_eq praw h _ hlt, hsum]
          rcases le_total (praw.getD h 0 + 5 / 100) (8 / 10) with hmin | hmin
          · rw [min_eq_left hmin]; nlinarith
          · rw [min_eq_right hmin]; nlinarith
        · exact List.length_set praw h _
      · exact key praw hnn (by rw [hsum]; norm_num) rfl

/-- The fully normalized probability vector inside `ModelService.predict`
(`adjusted` after the explicit division by its sum). -/
def adjustedOf (lm : LabelMap) (f : Indicators) (praw : List ℚ) : List ℚ :=
  normalizeL (adjustProbs lm f praw)

lemma adjustedOf_props (lm : LabelMap) (f : Indicators) (praw : List ℚ)
    (hnn : ∀ x ∈ praw, 0 ≤ x) (hsum : praw.sum = 1)
    (hlm : ∀ p ∈ lm, p.1 < praw.length) :
    adjustedOf lm f praw = adjustProbs lm f praw ∧ (adjustedOf lm f praw).sum = 1 ∧
      (∀ x ∈ adjustedOf lm f praw, 0 ≤ x ∧ x ≤ 1) ∧
      (adjustedOf lm f praw).length = praw.length := by
  obtain ⟨h1, h2, h3⟩ := adjustProbs_sum_one lm f praw hnn hsum hlm
  have heq : adjustedOf lm f praw = adjustProbs lm f praw :=
    normalizeL_of_sum_one _ h1
  refine ⟨heq, by rw [heq, h1], ?_, by rw [heq, h3]⟩
  intro x hx
  rw [heq] at hx
  refine ⟨h2 x hx, ?_⟩
  have := List.single_le_sum h2 x hx
  rwa [h1] at this

lemma predictM_eq (lm : LabelMap) (f : Indicators) (praw : List ℚ) :
    predictM lm f praw =
      { confidence := listMax (adjustedOf lm f praw)
        predicted_class := (lmGet lm (argmaxIdx (adjustedOf lm f praw))).getD "Unknown"
        class_probs := buildClassProbs lm (adjustedOf lm f praw) } := rfl

/-! Facts about the decision chain of `AnalysisService.analyze_audio`. -/

lemma coughIndicator_lt_half (ev ss : ℚ) : coughIndicator ev ss < 1 / 2 := by
  unfold coughIndicator
  split <;> split <;> norm_num

lemma conservativeStep_id (ci : ℚ) (label : String) (cp : List (String × ℚ))
    (h : ci < 1 / 2) : conservativeStep ci label cp = cp := by
  unfold conservativeStep
  rw [if_neg]
  rintro ⟨h1, _⟩
  linarith

lemma decideParts_probs (task : String) (feat : ExtractedFeatures) (pred : Prediction) :
    (decideParts task feat pred).2.2 = pred.class_probs := by
  unfold decideParts
  dsimp only
  exact conservativeStep_id _ _ _ (coughIndicator_lt_half _ _)

lemma decideResult_ok_elim (task : String) (feat : ExtractedFeatures) (pred : Prediction)
    (preferHF : Bool) (r : AnalysisResult)
    (h : decideResult task feat pred preferHF = Except.ok r) :
    ∃ t, decideCore task feat pred = Except.ok t ∧
      r = { predictions := t.2.2.2, label := t.1, confidence := t.2.1,
            possible_conditions := diseaseMap (t.1.toLower),
            source := if preferHF then "huggingface" else "local",
            original_label := t.2.2.1,
            low_confidence := decide (t.2.1 < (3 / 4 : ℚ)) } := by
  unfold decideResult at h
  cases hdc : decideCore task feat pred with
  | error e => rw [hdc] at h; simp [Except.map] at h
  | ok t =>
    rw [hdc] at h
    simp only [Except.map, Except.ok.injEq] at h
    exact ⟨t, rfl, h.symm⟩

lemma decideCore_ok_elim (task : String) (feat : ExtractedFeatures) (pred : Prediction)
    (t : String × ℚ × String × List (String × ℚ))
    (h : decideCore task feat pred = Except.ok t) :
    pred.class_probs.isEmpty = false ∧
      healthyStep pred.class_probs (decideParts task feat pred).1 =
        Except.ok (t.1, t.2.1) ∧
      t.2.2.1 = (decideParts task feat pred).2.1 ∧
      t.2.2.2 = pred.class_probs := by
  unfold decideCore at h
  by_cases he : pred.class_probs.isEmpty
  · rw [if_pos he] at h
    cases h
  · rw [if_neg he] at h
    dsimp only at h
    rw [decideParts_probs] at h
    cases hhs : healthyStep pred.class_probs (decideParts task feat pred).1 with
    | error e => rw [hhs] at h; cases h
    | ok lc5 =>
      rw [hhs] at h
      injection h with h'
      subst h'
      exact ⟨Bool.eq_false_iff.mpr he, rfl, rfl, rfl⟩

lemma forcedAbnormalStep_cases (task : String) (ev ss d : ℚ) (lc : String × ℚ) :
    forcedAbnormalStep task ev ss d lc = lc ∨
      forcedAbnormalStep task ev ss d lc = ("abnormal", 85 / 100) := by
  unfold forcedAbnormalStep
  split_ifs <;> simp

lemma cracklesGateStep_cases (lc : String × ℚ) :
    cracklesGateStep lc = lc ∨ cracklesGateStep lc = ("normal", 78 / 100) := by
  unfold cracklesGateStep
  split_ifs <;> simp

lemma cracklesCertainStep_cases (pc : String) (lc : String × ℚ) :
    cracklesCertainStep pc lc = lc ∨ cracklesCertainStep pc lc = ("crackles", 1) := by
  unfold cracklesCertainStep
  split_ifs <;> simp

lemma coughIndicatorStep_cases (ci : ℚ) (cp : List (String × ℚ)) (lc : String × ℚ)
    (o : String) :
    (coughIndicatorStep ci cp lc o).1 = lc ∨
      (coughIndicatorStep ci cp lc o).1 = ("crackles", 85 / 100) ∨
      (coughIndicatorStep ci cp lc o).1 = ("abnormal", 85 / 100) := by
  unfold coughIndicatorStep
  by_cases hci : ci ≥ 3 / 10
  · rw [if_pos hci]
    dsimp only
    by_cases ho : pyDictMaxKey cp = "crackles"
    · rw [if_pos ho]
      right; left; rfl
    · rw [if_neg ho]
      right; right; rfl
  · rw [if_neg hci]
    left; rfl

lemma healthyStep_ok_cases (cp : List (String × ℚ)) (lc lc5 : String × ℚ)
    (h : healthyStep cp lc = Except.ok lc5) :
    lc5 = lc ∨ lc5 = ("normal", pyDictGet cp "Healthy") := by
  unfold healthyStep at h
  dsimp only at h
  split_ifs at h
  all_goals cases h
  all_goals simp

lemma pyDictGet_bounds (d : List (String × ℚ)) (k : String)
    (hb : ∀ q ∈ d, 0 ≤ q.2 ∧ q.2 ≤ 1) : 0 ≤ pyDictGet d k ∧ pyDictGet d k ≤ 1 := by
  rcases pyDictGet_zero_or_mem d k with h | ⟨p, hp, h⟩
  · rw [h]; norm_num
  · rw [h]; exact hb p hp

lemma forcedAbnormalStep_bound (task : String) (ev ss d : ℚ) (lc : String × ℚ)
    (h : 0 ≤ lc.2 ∧ lc.2 ≤ 1) :
    0 ≤ (forcedAbnormalStep task ev ss d lc).2 ∧ (forcedAbnormalStep task ev ss d lc).2 ≤ 1 := by
  rcases forcedAbnormalStep_cases task ev ss d lc with he | he <;> rw [he]
  · exact h
  · norm_num

lemma cracklesGateStep_bound (lc : String × ℚ) (h : 0 ≤ lc.2 ∧ lc.2 ≤ 1) :
    0 ≤ (cracklesGateStep lc).2 ∧ (cracklesGateStep lc).2 ≤ 1 := by
  rcases cracklesGateStep_cases lc with he | he <;> rw [he]
  · exact h
  · norm_num

lemma cracklesCertainStep_bound (pc : String) (lc : String × ℚ) (h : 0 ≤ lc.2 ∧ lc.2 ≤ 1) :
    0 ≤ (cracklesCertainStep pc lc).2 ∧ (cracklesCertainStep pc lc).2 ≤ 1 := by
  rcases cracklesCertainStep_cases pc lc with he | he <;> rw [he]
  · exact h
  · norm_num

lemma coughIndicatorStep_bound (ci : ℚ) (cp : List (String × ℚ)) (lc : String × ℚ)
    (o : String) (h : 0 ≤ lc.2 ∧ lc.2 ≤ 1) :
    0 ≤ (coughIndicatorStep ci cp lc o).1.2 ∧ (coughIndicatorStep ci cp lc o).1.2 ≤ 1 := by
  rcases coughIndicatorStep_cases ci cp lc o with he | he | he <;> rw [he]
  · exact h
  · norm_num
  · norm_num

lemma decideParts_conf_bounds (task : String) (feat : ExtractedFeatures) (pred : Prediction)
    (hvb : ∀ q ∈ pred.class_probs, 0 ≤ q.2 ∧ q.2 ≤ 1) :
    0 ≤ (decideParts task feat pred).1.2 ∧ (decideParts task feat pred).1.2 ≤ 1 := by
  unfold decideParts
  dsimp only
  exact coughIndicatorStep_bound _ _ _ _
    (cracklesCertainStep_bound _ _
      (cracklesGateStep_bound _
        (forcedAbnormalStep_bound _ _ _ _ _ (pyDictGet_bounds _ _ hvb))))

lemma predictM_values_bound (lm : LabelMap) (f : Indicators) (praw : List ℚ)
    (hnn : ∀ x ∈ praw, 0 ≤ x) (hsum : praw.sum = 1)
    (hlm : ∀ p ∈ lm, p.1 < praw.length) :
    ∀ q ∈ (predictM lm f praw).class_probs, 0 ≤ q.2 ∧ q.2 ≤ 1 := by
  intro q hq
  obtain ⟨-, -, hb, -⟩ := adjustedOf_props lm f praw hnn hsum hlm
  exact hb _ (mem_values_buildClassProbs lm (adjustedOf lm f praw) q hq)

/-- C1: for every analysis request in which a rule overrides the label
(the returned label differs from the preserved original label), the
class-probability mapping returned in the result's `predictions` field
has values summing to 1.0 within 1e-6 (in the exact-rational model the
sum is exactly 1). -/
theorem C1_override_predictions_sum_one (task : String) (feat : ExtractedFeatures)
    (lm : LabelMap) (f : Indicators) (praw : List ℚ) (preferHF : Bool)
    (r : AnalysisResult)
    (hnn : ∀ x ∈ praw, 0 ≤ x) (hsum : praw.sum = 1)
    (hlm : ∀ p ∈ lm, p.1 < praw.length)
    (hinj : ∀ i < praw.length, ∀ j < praw.length, keyOf lm i = keyOf lm j → i = j)
    (hok : decideResult task feat (predictM lm f praw) preferHF = Except.ok r)
    (hover : r.label ≠ r.original_label) :
    |(r.predictions.map (fun p => p.2)).sum - 1| ≤ 1 / 1000000 := by
  obtain ⟨t, hdc, rfl⟩ := decideResult_ok_elim _ _ _ _ _ hok
  obtain ⟨-, -, -, hprobs⟩ := decideCore_ok_elim _ _ _ _ hdc
  obtain ⟨-, hsum1, -, hlen⟩ := adjustedOf_props lm f praw hnn hsum hlm
  have hinj' : ∀ i < (adjustedOf lm f praw).length, ∀ j < (adjustedOf lm f praw).length,
      keyOf lm i = keyOf lm j → i = j := by
    rw [hlen]; exact hinj
  have hvals : ((predictM lm f praw).class_probs.map (fun p => p.2)) = adjustedOf lm f praw :=
    values_buildClassProbs lm _ hinj'
  show |(t.2.2.2.map (fun p => p.2)).sum - 1| ≤ 1 / 1000000
  rw [hprobs, hvals, hsum1]
  norm_num

/-- C4: for every successfully produced decision result, the final
confidence lies in [0, 1] and the `low_confidence` flag is set exactly
when the confidence is strictly below 0.75. -/
theorem C4_confidence_range_low_flag (task : String) (feat : ExtractedFeatures)
    (lm : LabelMap) (f : Indicators) (praw : List ℚ) (preferHF : Bool)
    (r : AnalysisResult)
    (hnn : ∀ x ∈ praw, 0 ≤ x) (hsum : praw.sum = 1)
    (hlm : ∀ p ∈ lm, p.1 < praw.length)
    (hok : decideResult task feat (predictM lm f praw) preferHF = Except.ok r) :
    0 ≤ r.confidence ∧ r.confidence ≤ 1 ∧
      (r.low_confidence = true ↔ r.confidence < 3 / 4) := by
  obtain ⟨t, hdc, rfl⟩ := decideResult_ok_elim _ _ _ _ _ hok
  obtain ⟨-, hhs, -, -⟩ := decideCore_ok_elim _ _ _ _ hdc
  have hvb := predictM_values_bound lm f praw hnn hsum hlm
  have hbound : 0 ≤ t.2.1 ∧ t.2.1 ≤ 1 := by
    rcases healthyStep_ok_cases _ _ _ hhs with he | he
    · have := decideParts_conf_bounds task feat (predictM lm f praw) hvb
      have h21 : t.2.1 = (decideParts task feat (predictM lm f praw)).1.2 := by
        rw [← he]
      rw [h21]
      exact this
    · have h21 : t.2.1 = pyDictGet (predictM lm f praw).class_probs "Healthy" :=
        congrArg Prod.snd he
      rw [h21]
      exact pyDictGet_bounds _ _ hvb
  refine ⟨hbound.1, hbound.2, ?_⟩
  show decide (t.2.1 < (3 / 4 : ℚ)) = true ↔ t.2.1 < 3 / 4
  simp

/-- A concrete three-class label map used to instantiate the theorems. -/
def lmW : LabelMap := [(0, "crackles"), (1, "Healthy"), (2, "COPD")]

/-- A concrete classifier output: `crackles` at 0.6. -/
def prawW : List ℚ := [3 / 5, 1 / 20, 7 / 20]

/-- Indicators all zero (quiet audio). -/
def indW : Indicators := {}

/-- A features dict with an all-zero feature vector. -/
def featW : ExtractedFeatures :=
  { model_features := List.replicate 120 0, duration := 3, ind := indW }

/-- The result of running the decision chain on `featW`/`prawW`: the
crackles gate relabels to `normal` at confidence 0.78. -/
def resW : AnalysisResult :=
  { predictions := [("crackles", 3 / 5), ("Healthy", 1 / 20), ("COPD", 7 / 20)]
    label := "normal"
    confidence := 39 / 50
    possible_conditions := ["Healthy"]
    source := "local"
    original_label := "crackles"
    low_confidence := false }

/-- Witness for C1: a concrete run in which the crackles gate overrides
the label and the returned predictions sum to exactly 1. -/
theorem C1_witness :
    decideResult "breath" featW (predictM lmW indW prawW) false = Except.ok resW ∧
      resW.label ≠ resW.original_label ∧
      |(resW.predictions.map (fun p => p.2)).sum - 1| ≤ 1 / 1000000 := by
  refine ⟨by with_unfolding_all rfl, by decide, ?_⟩
  exact C1_override_predictions_sum_one "breath" featW lmW indW prawW false resW
    (by with_unfolding_all decide) (by with_unfolding_all decide) (by decide) (by decide)
    (by with_unfolding_all rfl) (by decide)

/-- Witness for C4: the same concrete run has confidence 0.78 in [0, 1]
with `low_confidence` false. -/
theorem C4_witness :
    decideResult "breath" featW (predictM lmW indW prawW) false = Except.ok resW ∧
      0 ≤ resW.confidence ∧ resW.confidence ≤ 1 ∧
      (resW.low_confidence = true ↔ resW.confidence < 3 / 4) :=
  ⟨by with_unfolding_all rfl,
    C4_confidence_range_low_flag "breath" featW lmW indW prawW false resW
      (by with_unfolding_all decide) (by with_unfolding_all decide) (by decide)
      (by with_unfolding_all rfl)⟩

lemma coughIndicator_lt_of_not_both (ev ss : ℚ)
    (hside : ¬ (ev > 400000 ∧ ss > 7 / 10)) : coughIndicator ev ss < 3 / 10 := by
  unfold coughIndicator
  split_ifs with h1 h2 h2
  · exact absurd ⟨h1, h2⟩ hside
  · norm_num
  · norm_num
  · norm_num

lemma forcedAbnormalStep_crackles (task : String) (ev ss d conf : ℚ)
    (hside : ¬ (ev > 400000 ∧ ss > 7 / 10)) :
    forcedAbnormalStep task ev ss d ("crackles", conf) = ("crackles", conf) := by
  unfold forcedAbnormalStep
  split_ifs with h1 h2 h3 h4 h5
  · exact absurd ⟨by linarith [h2.1], by linarith [h2.2.1]⟩ hside
  · obtain ⟨hx, -⟩ := h3
    simp at hx
  · rfl
  · exact absurd ⟨by linarith [h4.1], by linarith [h4.2.1]⟩ hside
  · obtain ⟨hx, -⟩ := h5
    simp at hx
  · rfl

lemma decideParts_crackles_gate (task : String) (feat : ExtractedFeatures) (pred : Prediction)
    (hlabel : pyDictMaxKey pred.class_probs = "crackles")
    (hconf : pyDictGet pred.class_probs "crackles" < 9 / 10)
    (hside : ¬ (energyVarianceOf feat.model_features > 400000 ∧
      spectralSharpnessOf feat.model_features > 7 / 10)) :
    (decideParts task feat pred).1 = ("normal", 78 / 100) := by
  unfold decideParts
  dsimp only
  rw [hlabel]
  rw [forcedAbnormalStep_crackles task _ _ _ _ hside]
  have hg : cracklesGateStep ("crackles", pyDictGet pred.class_probs "crackles") =
      ("normal", 78 / 100) := by
    unfold cracklesGateStep
    rw [if_pos ⟨rfl, hconf⟩]
  rw [hg]
  have hc : cracklesCertainStep pred.predicted_class ("normal", (78 : ℚ) / 100) =
      ("normal", 78 / 100) := by
    unfold cracklesCertainStep
    rw [if_neg]
    rintro ⟨-, h⟩
    norm_num at h
  rw [hc]
  unfold coughIndicatorStep
  rw [if_neg]
  exact not_le_of_lt (coughIndicator_lt_of_not_both _ _ hside)

lemma adjustProbs_id (lm : LabelMap) (f : Indicators) (praw : List ℚ)
    (hsum : praw.sum = 1) (hc : coughScore f < 85 / 100) (hn : normalScore f < 8 / 10) :
    adjustProbs lm f praw = praw := by
  unfold adjustProbs
  rcases healthyIdx lm with _ | h
  · dsimp only
    exact normalizeL_of_sum_one praw hsum
  · dsimp only
    rw [if_neg (not_le_of_lt hc), if_neg (not_le_of_lt hn)]
    exact normalizeL_of_sum_one praw hsum

/-- The indicator tuple of C3: energy variation 3.0, harsh sound ratio
0.15, onset rate 1.0 (remaining indicators zero except an arbitrary
signal strength). -/
def indC3 (sig : ℚ) : Indicators :=
  { cough_event_ratio := 0, cough_frequency_ratio := 0, harsh_sound_ratio := 3 / 20,
    onset_rate := 1, energy_variation := 3, signal_strength := sig }

lemma coughScore_indC3 (sig : ℚ) : coughScore (indC3 sig) = 11 / 30 := by
  unfold coughScore indC3
  norm_num [min_def]

lemma normalScore_indC3_lt (sig : ℚ) : normalScore (indC3 sig) < 8 / 10 := by
  unfold normalScore indC3
  dsimp only
  have e1 : min ((0 : ℚ) / (8 / 100)) 1 = 0 := by norm_num
  have e2 : min ((3 : ℚ) / 20 / (2 / 10)) 1 = 3 / 4 := by norm_num [min_def]
  have e3 : min ((3 : ℚ) / 2) 1 = 1 := by norm_num [min_def]
  rw [e1, e2, e3]
  have hm : min (sig / (3 / 1000)) 1 ≤ 1 := min_le_right _ _
  have hb : (1 - (0 : ℚ)) * (25 / 100) + (1 - 3 / 4) * (25 / 100)
      + min (sig / (3 / 1000)) 1 * (25 / 100) + (1 - 1) * (25 / 100) ≤ 9 / 16 := by
    nlinarith
  calc min ((1 - (0 : ℚ)) * (25 / 100) + (1 - 3 / 4) * (25 / 100)
        + min (sig / (3 / 1000)) 1 * (25 / 100) + (1 - 1) * (25 / 100)) 1
      ≤ (1 - (0 : ℚ)) * (25 / 100) + (1 - 3 / 4) * (25 / 100)
        + min (sig / (3 / 1000)) 1 * (25 / 100) + (1 - 1) * (25 / 100) := min_le_left _ _
    _ ≤ 9 / 16 := hb
    _ < 8 / 10 := by norm_num

/-- C3 amended: given the indicator tuple (energy_variation 3.0,
harsh_sound_ratio 0.15, onset_rate 1.0) with zero cough-event and
cough-frequency ratios, the engine does not force a `cough` label; it
applies no adjustment at all (cough score 11/30 < 0.85, normal score
< 0.8), so the probability vector passes through unchanged and the
predicted class is whatever the classifier's argmax maps to. -/
theorem C3_indicator_tuple_passthrough (lm : LabelMap) (praw : List ℚ) (sig : ℚ)
    (hsum : praw.sum = 1) :
    adjustProbs lm (indC3 sig) praw = praw ∧
      (predictM lm (indC3 sig) praw).predicted_class =
        (lmGet lm (argmaxIdx praw)).getD "Unknown" ∧
      (predictM lm (indC3 sig) praw).confidence = listMax praw := by
  have hid : adjustProbs lm (indC3 sig) praw = praw :=
    adjustProbs_id lm (indC3 sig) praw hsum
      (by rw [coughScore_indC3]; norm_num) (normalScore_indC3_lt sig)
  have hadj : adjustedOf lm (indC3 sig) praw = praw := by
    unfold adjustedOf
    rw [hid]
    exact normalizeL_of_sum_one praw hsum
  refine ⟨hid, ?_, ?_⟩
  · rw [predictM_eq, hadj]
  · rw [predictM_eq, hadj]

/-- The label map and classifier output of the C3 counterexample. -/
def lmC3 : LabelMap := [(0, "Healthy"), (1, "COPD")]

/-- Classifier output `Healthy` 0.9 / `COPD` 0.1 for the C3 counterexample. -/
def prawC3 : List ℚ := [9 / 10, 1 / 10]

/-- Features dict carrying the C3 indicator tuple over a quiet vector. -/
def featC3 : ExtractedFeatures :=
  { model_features := List.replicate 120 0, duration := 3, ind := indC3 0 }

/-- Counterexample to C3 as stated: with the indicator tuple
(energy_variation 3.0, harsh_sound_ratio 0.15, onset_rate 1.0) and a
classifier reporting `Healthy` at 0.9, the final label of the full
decision pipeline is `normal` — not `cough`, and no rule in the code
forces `cough` for this tuple. -/
theorem C3_counterexample :
    (indC3 0).energy_variation = 3 ∧ (indC3 0).harsh_sound_ratio = 15 / 100 ∧
      (indC3 0).onset_rate = 1 ∧
      (decideResult "breath" featC3 (predictM lmC3 (indC3 0) prawC3) false).map
        (fun r => (r.label, r.confidence)) = Except.ok ("normal", 9 / 10) ∧
      "normal" ≠ "cough" := by
  refine ⟨rfl, by with_unfolding_all rfl, rfl, ?_, by decide⟩
  with_unfolding_all rfl

/-- Witness for C3 (amended): at the concrete classifier output
`[0.9, 0.1]` the engine passes the vector through and predicts the
classifier's own argmax label `Healthy`. -/
theorem C3_witness :
    adjustProbs lmC3 (indC3 0) prawC3 = prawC3 ∧
      (predictM lmC3 (indC3 0) prawC3).predicted_class = "Healthy" := by
  have h := C3_indicator_tuple_passthrough lmC3 prawC3 0 (by with_unfolding_all rfl)
  refine ⟨h.1, ?_⟩
  rw [h.2.1]
  with_unfolding_all rfl

/-! Length fitting and the pipeline traces. -/

lemma length_selectFeatures (r : RunInput) (noise : Nat → ℚ) :
    (selectFeatures r noise).length = 120 := by
  unfold selectFeatures
  dsimp only
  split_ifs <;>
    (try simp only [List.length_append, List.length_take, List.length_map, List.length_range,
      List.length_replicate] at *) <;>
    omega

lemma length_standardize (l : List ℚ) (sigma : ℚ) :
    (standardize l sigma).length = l.length := by
  simp [standardize]

lemma length_prepareFeatures (mf : List ℚ) : (prepareFeatures mf).length = 120 := by
  unfold prepareFeatures
  split_ifs <;>
    (try simp only [List.length_append, List.length_take, List.length_replicate]) <;>
    omega

/-- C5: for every run input, the feature vector stored in
`model_features` and the vector handed to the classifier both have
exactly length 120, and every value surviving `np.nan_to_num` is finite
(no NaN or Inf). -/
theorem C5_feature_vector_shape (r : RunInput) (noise : Nat → ℚ) (sigma : ℚ) :
    (extractModel r noise sigma).model_features.length = 120 ∧
      (prepareFeatures (extractModel r noise sigma).model_features).length = 120 ∧
      ∀ v ∈ sanitize (selectFeatures r noise), v.isFinite = true := by
  refine ⟨?_, length_prepareFeatures _, ?_⟩
  · show (standardize ((selectFeatures r noise).map nanToNum) sigma).length = 120
    rw [length_standardize, List.length_map, length_selectFeatures]
  · intro v hv
    obtain ⟨w, hw, rfl⟩ := List.mem_map.mp hv
    rfl

lemma normalize_audio_ok (a : AudioInput) (min_duration : ℚ)
    (hp : a.present = true) (hc : a.convertOk = true)
    (hd : ¬ a.normDuration < min_duration) :
    normalize_audio a min_duration =
      { result := Except.ok a.normDuration, tempCreated := true, tempDeleted := false } := by
  unfold normalize_audio
  rw [if_neg (by simp [hp]), if_neg (by simp [hc]), if_neg hd]

lemma normalize_audio_short (a : AudioInput) (min_duration : ℚ)
    (hp : a.present = true) (hc : a.convertOk = true)
    (hd : a.normDuration < min_duration) :
    normalize_audio a min_duration =
      { result := Except.error "Audio too short", tempCreated := true, tempDeleted := true } := by
  unfold normalize_audio
  rw [if_neg (by simp [hp]), if_neg (by simp [hc]), if_pos hd]

lemma normalize_audio_error_deleted (a : AudioInput) (min_duration : ℚ) (e : String)
    (h : (normalize_audio a min_duration).result = Except.error e) :
    (normalize_audio a min_duration).tempDeleted = (normalize_audio a min_duration).tempCreated := by
  unfold normalize_audio at h ⊢
  split_ifs at h ⊢ <;> simp_all

lemma analyze_audio_eq_of_normError (a : AudioInput) (task : String) (min_duration : ℚ)
    (extract : Except String ExtractedFeatures) (lm : LabelMap) (praw : List ℚ)
    (preferHF : Bool) (e : String)
    (hn : (normalize_audio a min_duration).result = Except.error e) :
    analyze_audio a task min_duration extract lm praw preferHF =
      { outcome := Outcome.httpError 400 e,
        tempCreated := (normalize_audio a min_duration).tempCreated,
        tempDeleted := (normalize_audio a min_duration).tempDeleted,
        featuresComputed := false } := by
  unfold analyze_audio
  dsimp only
  rw [hn]

lemma analyze_audio_eq_of_extractError (a : AudioInput) (task : String) (min_duration : ℚ)
    (msg : String) (lm : LabelMap) (praw : List ℚ) (preferHF : Bool) (d : ℚ)
    (hn : (normalize_audio a min_duration).result = Except.ok d) :
    analyze_audio a task min_duration (Except.error msg) lm praw preferHF =
      { outcome := Outcome.demoFallback,
        tempCreated := (normalize_audio a min_duration).tempCreated,
        tempDeleted := false, featuresComputed := false } := by
  unfold analyze_audio
  dsimp only
  rw [hn]

lemma analyze_audio_eq_of_emptyProbs (a : AudioInput) (task : String) (min_duration : ℚ)
    (feat : ExtractedFeatures) (lm : LabelMap) (praw : List ℚ) (preferHF : Bool) (d : ℚ)
    (hn : (normalize_audio a min_duration).result = Except.ok d)
    (hpe : praw.isEmpty = true) :
    analyze_audio a task min_duration (Except.ok feat) lm praw preferHF =
      { outcome := Outcome.demoFallback,
        tempCreated := (normalize_audio a min_duration).tempCreated,
        tempDeleted := false, featuresComputed := true } := by
  unfold analyze_audio
  dsimp only
  rw [hn]
  dsimp only
  rw [if_pos hpe]

lemma analyze_audio_eq_of_decideError (a : AudioInput) (task : String) (min_duration : ℚ)
    (feat : ExtractedFeatures) (lm : LabelMap) (praw : List ℚ) (preferHF : Bool) (d : ℚ)
    (e : String)
    (hn : (normalize_audio a min_duration).result = Except.ok d)
    (hpe : praw.isEmpty = false)
    (hdr : decideResult task feat (predictM lm feat.ind praw) preferHF = Except.error e) :
    analyze_audio a task min_duration (Except.ok feat) lm praw preferHF =
      { outcome := Outcome.demoFallback,
        tempCreated := (normalize_audio a min_duration).tempCreated,
        tempDeleted := true, featuresComputed := true } := by
  unfold analyze_audio
  dsimp only
  rw [hn]
  dsimp only
  rw [if_neg (by simp [hpe]), hdr]

lemma analyze_audio_eq_of_ok (a : AudioInput) (task : String) (min_duration : ℚ)
    (feat : ExtractedFeatures) (lm : LabelMap) (praw : List ℚ) (preferHF : Bool) (d : ℚ)
    (res : AnalysisResult)
    (hn : (normalize_audio a min_duration).result = Except.ok d)
    (hpe : praw.isEmpty = false)
    (hdr : decideResult task feat (predictM lm feat.ind praw) preferHF = Except.ok res) :
    analyze_audio a task min_duration (Except.ok feat) lm praw preferHF =
      { outcome := Outcome.success res,
        tempCreated := (normalize_audio a min_duration).tempCreated,
        tempDeleted := true, featuresComputed := true } := by
  unfold analyze_audio
  dsimp only
  rw [hn]
  dsimp only
  rw [if_neg (by simp [hpe]), hdr]

/-- C6: audio whose normalized duration falls below the caller-supplied
minimum makes `normalize_audio` raise `AudioNormalizationError` (an HTTP
400 at the pipeline boundary), and feature extraction is never invoked
for that request. -/
theorem C6_short_audio_rejected (a : AudioInput) (task : String) (min_duration : ℚ)
    (extract : Except String ExtractedFeatures) (lm : LabelMap) (praw : List ℚ)
    (preferHF : Bool)
    (hp : a.present = true) (hc : a.convertOk = true)
    (hd : a.normDuration < min_duration) :
    (normalize_audio a min_duration).result = Except.error "Audio too short" ∧
      (analyze_audio a task min_duration extract lm praw preferHF).outcome =
        Outcome.httpError 400 "Audio too short" ∧
      (analyze_audio a task min_duration extract lm praw preferHF).featuresComputed = false := by
  have hn := normalize_audio_short a min_duration hp hc hd
  refine ⟨by rw [hn], ?_, ?_⟩ <;> simp [analyze_audio, hn]

/-- C7 amended: when feature extraction raises after successful
normalization, `analyze_audio` does not propagate a hard failure; the
generic handler returns the demo-fallback dict (label `clear`, source
`demo_fallback`) instead. Only normalization errors produce a hard
(HTTP 400) failure. -/
theorem C7_extraction_error_returns_fallback (a : AudioInput) (task : String)
    (min_duration : ℚ) (msg : String) (lm : LabelMap) (praw : List ℚ) (preferHF : Bool)
    (hp : a.present = true) (hc : a.convertOk = true)
    (hd : ¬ a.normDuration < min_duration) :
    (analyze_audio a task min_duration (Except.error msg) lm praw preferHF).outcome =
        Outcome.demoFallback ∧
      (analyze_audio a task min_duration (Except.error msg) lm praw
        preferHF).outcome.isHardFailure = false := by
  have hn := normalize_audio_ok a min_duration hp hc hd
  constructor <;> simp [analyze_audio, hn, Outcome.isHardFailure]

/-- A readable, convertible three-second audio input. -/
def audioOk : AudioInput := { present := true, convertOk := true, normDuration := 3 }

/-- Counterexample to C7 as stated: a request whose feature extraction
raises still yields a returned (non-raised) outcome — the demo-fallback
dict — so the extraction failure is masked rather than propagated as a
hard failure. -/
theorem C7_counterexample :
    (analyze_audio audioOk "breath" (1 / 2) (Except.error "feature extraction failed")
        [] [] false).outcome = Outcome.demoFallback ∧
      (analyze_audio audioOk "breath" (1 / 2) (Except.error "feature extraction failed")
        [] [] false).outcome.isHardFailure = false := by
  constructor <;> with_unfolding_all rfl

/-- Witness for C7 (amended): concrete instantiation of the fallback
behaviour for a failing extractor. -/
theorem C7_witness :
    (analyze_audio audioOk "speech" (1 / 2) (Except.error "opensmile unavailable")
        lmW prawW false).outcome = Outcome.demoFallback ∧
      (analyze_audio audioOk "speech" (1 / 2) (Except.error "opensmile unavailable")
        lmW prawW false).outcome.isHardFailure = false :=
  C7_extraction_error_returns_fallback audioOk "speech" (1 / 2) "opensmile unavailable"
    lmW prawW false rfl rfl (by with_unfolding_all decide)

/-- C8 amended: the normalized temp file is deleted on the success path
and on normalization failure (where the file, if it was written at all,
is removed by `normalize_audio`'s handler), but it is NOT deleted when a
later stage raises: an extraction failure leaves the file behind. -/
theorem C8_temp_file_amended (a : AudioInput) (task : String) (min_duration : ℚ)
    (extract : Except String ExtractedFeatures) (lm : LabelMap) (praw : List ℚ)
    (preferHF : Bool) :
    (∀ res, (analyze_audio a task min_duration extract lm praw preferHF).outcome =
        Outcome.success res →
      (analyze_audio a task min_duration extract lm praw preferHF).tempDeleted = true) ∧
      (∀ s d, (analyze_audio a task min_duration extract lm praw preferHF).outcome =
          Outcome.httpError s d →
        (analyze_audio a task min_duration extract lm praw preferHF).tempDeleted =
          (analyze_audio a task min_duration extract lm praw preferHF).tempCreated) ∧
      (∀ msg, a.present = true → a.convertOk = true → ¬ a.normDuration < min_duration →
        extract = Except.error msg →
        (analyze_audio a task min_duration extract lm praw preferHF).tempCreated = true ∧
          (analyze_audio a task min_duration extract lm praw preferHF).tempDeleted = false) := by
  refine ⟨?_, ?_, ?_⟩
  · intro res hres
    rcases hn : (normalize_audio a min_duration).result with e | d
    · rw [analyze_audio_eq_of_normError a task min_duration extract lm praw preferHF e hn]
        at hres
      cases hres
    · cases extract with
      | error msg =>
        rw [analyze_audio_eq_of_extractError a task min_duration msg lm praw preferHF d hn]
          at hres
        cases hres
      | ok feat =>
        cases hpe : praw.isEmpty with
        | true =>
          rw [analyze_audio_eq_of_emptyProbs a task min_duration feat lm praw preferHF d hn
            hpe] at hres
          cases hres
        | false =>
          rcases hdr : decideResult task feat (predictM lm feat.ind praw) preferHF
            with e' | r'
          · rw [analyze_audio_eq_of_decideError a task min_duration feat lm praw preferHF d
              e' hn hpe hdr] at hres
            cases hres
          · rw [analyze_audio_eq_of_ok a task min_duration feat lm praw preferHF d r' hn hpe
              hdr]
  · intro s d hres
    rcases hn : (normalize_audio a min_duration).result with e | dd
    · rw [analyze_audio_eq_of_normError a task min_duration extract lm praw preferHF e hn]
      exact normalize_audio_error_deleted a min_duration e hn
    · cases extract with
      | error msg =>
        rw [analyze_audio_eq_of_extractError a task min_duration msg lm praw preferHF dd hn]
          at hres
        cases hres
      | ok feat =>
        cases hpe : praw.isEmpty with
        | true =>
          rw [analyze_audio_eq_of_emptyProbs a task min_duration feat lm praw preferHF dd hn
            hpe] at hres
          cases hres
        | false =>
          rcases hdr : decideResult task feat (predictM lm feat.ind praw) preferHF
            with e' | r'
          · rw [analyze_audio_eq_of_decideError a task min_duration feat lm praw preferHF dd
              e' hn hpe hdr] at hres
            cases hres
          · rw [analyze_audio_eq_of_ok a task min_duration feat lm praw preferHF dd r' hn hpe
              hdr] at hres
            cases hres
  · intro msg hp hc hd hex
    subst hex
    have hn := normalize_audio_ok a min_duration hp hc hd
    have hres : (normalize_audio a min_duration).result = Except.ok a.normDuration := by
      rw [hn]
    rw [analyze_audio_eq_of_extractError a task min_duration msg lm praw preferHF
      a.normDuration hres, hn]
    exact ⟨rfl, rfl⟩

/-- A readable input whose normalized duration 0.2s is below the 0.5s
default minimum. -/
def audioShort : AudioInput := { present := true, convertOk := true, normDuration := 1 / 5 }

/-- Witness for C6: the 0.2s clip is rejected with the normalization
error and no feature vector is computed. -/
theorem C6_witness :
    audioShort.normDuration < 1 / 2 ∧
      (normalize_audio audioShort (1 / 2)).result = Except.error "Audio too short" ∧
      (analyze_audio audioShort "breath" (1 / 2) (Except.ok featW) lmW prawW false).outcome =
        Outcome.httpError 400 "Audio too short" ∧
      (analyze_audio audioShort "breath" (1 / 2) (Except.ok featW) lmW prawW
        false).featuresComputed = false := by
  refine ⟨by with_unfolding_all decide, ?_⟩
  have h := C6_short_audio_rejected audioShort "breath" (1 / 2) (Except.ok featW) lmW prawW
    false rfl rfl (by with_unfolding_all decide)
  exact h

/-- Counterexample to C8 as stated: after successful normalization, a
feature-extraction failure reaches the generic handler, which returns
the fallback without deleting the normalized temp file — the file is
created but never deleted on this exit path. -/
theorem C8_counterexample :
    (analyze_audio audioOk "breath" (1 / 2) (Except.error "feature extraction failed")
        [] [] false).tempCreated = true ∧
      (analyze_audio audioOk "breath" (1 / 2) (Except.error "feature extraction failed")
        [] [] false).tempDeleted = false := by
  constructor <;> with_unfolding_all rfl

/-- Witness for C8 (amended): a successful concrete run does delete the
temp file. -/
theorem C8_witness :
    (analyze_audio audioOk "breath" (1 / 2) (Except.ok featW) lmW prawW false).outcome =
        Outcome.success resW ∧
      (analyze_audio audioOk "breath" (1 / 2) (Except.ok featW) lmW prawW
        false).tempDeleted = true := by
  have hout : (analyze_audio audioOk "breath" (1 / 2) (Except.ok featW) lmW prawW
      false).outcome = Outcome.success resW := by
    with_unfolding_all rfl
  exact ⟨hout,
    (C8_temp_file_amended audioOk "breath" (1 / 2) (Except.ok featW) lmW prawW false).1
      resW hout⟩

instance {ε α : Type} [DecidableEq ε] [DecidableEq α] : DecidableEq (Except ε α) :=
  fun x y =>
    match x, y with
    | Except.error a, Except.error b =>
      if h : a = b then isTrue (by rw [h]) else isFalse (by intro hh; injection hh; exact h ‹_›)
    | Except.ok a, Except.ok b =>
      if h : a = b then isTrue (by rw [h]) else isFalse (by intro hh; injection hh; exact h ‹_›)
    | Except.error _, Except.ok _ => isFalse (by intro hh; cases hh)
    | Except.ok _, Except.error _ => isFalse (by intro hh; cases hh)

lemma selectFeatures_noise_indep (r : RunInput) (n1 n2 : Nat → ℚ)
    (h : 120 ≤ (combineFeatures r).length) :
    selectFeatures r n1 = selectFeatures r n2 := by
  unfold selectFeatures
  dsimp only
  split_ifs <;> first | rfl | (exfalso; omega)

/-- C9 amended: the pipeline is deterministic except for the random
noise padding: whenever the combined feature vector already has at least
120 entries (so the `np.random.normal` padding path is not taken), two
runs on the same input with the same model produce identical results
whatever the noise source; with fewer entries the random draw enters the
feature vector and the determinism claim fails (see the counterexample). -/
theorem C9_deterministic_without_padding (model : List ℚ → List ℚ) (lm : LabelMap)
    (task : String) (preferHF : Bool) (r : RunInput) (n1 n2 : Nat → ℚ) (sigma : ℚ)
    (h : 120 ≤ (combineFeatures r).length) :
    runPipeline model lm task preferHF r n1 sigma =
      runPipeline model lm task preferHF r n2 sigma := by
  unfold runPipeline extractModel
  rw [selectFeatures_noise_indep r n1 n2 h]

/-- The C9 counterexample run input: the concatenation handler fell back
to the 88 OpenSMILE values alone, so 32 noise values are drawn. -/
def runC9 : RunInput :=
  { opensmile_features := List.replicate 88 (Val.finite 0), additional_features := [],
    basic_features := [], concatFailed := true, ind := indW, duration := 3 }

/-- First random draw: all padding zero. -/
def noiseA : Nat → ℚ := fun _ => 0

/-- Second random draw: the first 24 padded values are 5. -/
def noiseB : Nat → ℚ := fun i => if i < 24 then 5 else 0

/-- A fixed classifier reading the first standardized feature. -/
def modelC9 : List ℚ → List ℚ :=
  fun fv => if fv.getD 0 0 < 0 then [3 / 4, 1 / 4] else [1 / 4, 3 / 4]

/-- A run input whose combined features already exceed 120 entries
(88 + 32 + 18), the nominal path with no random padding. -/
def runD : RunInput :=
  { opensmile_features := List.replicate 88 (Val.finite 0)
    additional_features := List.replicate 32 (Val.finite 0)
    basic_features := List.replicate 18 (Val.finite 0)
    concatFailed := false, ind := indW, duration := 3 }

set_option maxRecDepth 100000 in
set_option maxHeartbeats 1000000 in
/-- Counterexample to C9 as stated: two runs on byte-identical audio
with the same loaded model, differing only in the internal random noise
draw (and the induced standard deviations 0 and 2, which are exactly
`sqrt (npVar v)` of the respective vectors), produce different decision
results (confidence 1/4 with original label `COPD` versus confidence
3/4 with original label `Healthy`). -/
theorem C9_counterexample :
    npVar ((selectFeatures runC9 noiseA).map nanToNum) = 0 ^ 2 ∧
      npVar ((selectFeatures runC9 noiseB).map nanToNum) = 2 ^ 2 ∧
      (runPipeline modelC9 lmC3 "breath" false runC9 noiseA 0).map
        (fun r => (r.label, r.confidence, r.original_label)) =
        Except.ok ("normal", 1 / 4, "COPD") ∧
      (runPipeline modelC9 lmC3 "breath" false runC9 noiseB 2).map
        (fun r => (r.label, r.confidence, r.original_label)) =
        Except.ok ("normal", 3 / 4, "Healthy") ∧
      runPipeline modelC9 lmC3 "breath" false runC9 noiseA 0 ≠
        runPipeline modelC9 lmC3 "breath" false runC9 noiseB 2 := by
  refine ⟨?_, ?_, ?_, ?_, ?_⟩ <;> with_unfolding_all decide

set_option maxRecDepth 100000 in
/-- Witness for C9 (amended): on the nominal 138-entry input the two
noise sources give byte-identical results. -/
theorem C9_witness :
    120 ≤ (combineFeatures runD).length ∧
      runPipeline modelC9 lmC3 "breath" false runD noiseA 0 =
        runPipeline modelC9 lmC3 "breath" false runD noiseB 0 :=
  ⟨by decide,
    C9_deterministic_without_padding modelC9 lmC3 "breath" false runD noiseA noiseB 0
      (by decide)⟩

/-- C10: `ModelService.predict` returns an internally consistent record:
the confidence is the maximum of the returned class-probability values,
the predicted class is what the inverse label map assigns to the (first)
index attaining that maximum, falling back to "Unknown", and the dict
keys fall back to `class_i` via `keyOf`. -/
theorem C10_predict_internal_consistency (lm : LabelMap) (f : Indicators) (praw : List ℚ)
    (hne : praw ≠ []) (hnn : ∀ x ∈ praw, 0 ≤ x) (hsum : praw.sum = 1)
    (hlm : ∀ p ∈ lm, p.1 < praw.length)
    (hinj : ∀ i < praw.length, ∀ j < praw.length, keyOf lm i = keyOf lm j → i = j) :
    (predictM lm f praw).confidence =
        listMax ((predictM lm f praw).class_probs.map (fun p => p.2)) ∧
      (predictM lm f praw).predicted_class =
        (lmGet lm (argmaxIdx (adjustedOf lm f praw))).getD "Unknown" ∧
      (adjustedOf lm f praw).getD (argmaxIdx (adjustedOf lm f praw)) 0 =
        (predictM lm f praw).confidence ∧
      (predictM lm f praw).class_probs =
        (adjustedOf lm f praw).enum.map (fun p => (keyOf lm p.1, p.2)) := by
  obtain ⟨-, -, -, hlen⟩ := adjustedOf_props lm f praw hnn hsum hlm
  have hinj' : ∀ i < (adjustedOf lm f praw).length, ∀ j < (adjustedOf lm f praw).length,
      keyOf lm i = keyOf lm j → i = j := by
    rw [hlen]; exact hinj
  have hadj_ne : adjustedOf lm f praw ≠ [] := by
    intro h0
    apply hne
    apply List.eq_nil_of_length_eq_zero
    rw [← hlen, h0]
    rfl
  refine ⟨?_, rfl, argmaxIdx_getD _ hadj_ne, buildClassProbs_eq lm _ hinj'⟩
  show listMax (adjustedOf lm f praw) =
    listMax ((buildClassProbs lm (adjustedOf lm f praw)).map (fun p => p.2))
  rw [values_buildClassProbs lm _ hinj']

/-- Witness for C10: at the concrete three-class run the confidence 0.6
is the maximum of the returned mapping and the predicted class is
`crackles`. -/
theorem C10_witness :
    (predictM lmW indW prawW).confidence =
        listMax ((predictM lmW indW prawW).class_probs.map (fun p => p.2)) ∧
      (predictM lmW indW prawW).predicted_class = "crackles" ∧
      (predictM lmW indW prawW).confidence = 3 / 5 := by
  have h := C10_predict_internal_consistency lmW indW prawW (by decide)
    (by with_unfolding_all decide) (by with_unfolding_all rfl) (by decide) (by decide)
  refine ⟨h.1, ?_, by with_unfolding_all rfl⟩
  rw [h.2.1]
  with_unfolding_all rfl

/-! Variance bound for standardized feature vectors: on every real
request the vector sliced by the cough-indicator logic of
`analyze_audio` is the standardized output of `extract_features`, whose
total squared mass is below its length; a 5-element slice variance can
therefore never approach the 400000 threshold. -/

lemma sum_sq_sub_expand (s : List ℚ) (m : ℚ) :
    (s.map (fun z => (z - m) ^ 2)).sum =
      (s.map (fun z => z ^ 2)).sum - 2 * m * s.sum + s.length * m ^ 2 := by
  induction s with
  | nil => simp
  | cons a t ih =>
    simp only [List.map_cons, List.sum_cons, List.length_cons, ih]
    push_cast
    ring

lemma sum_sq_dev_le (s : List ℚ) :
    (s.map (fun z => (z - meanL s) ^ 2)).sum ≤ (s.map (fun z => z ^ 2)).sum := by
  rcases eq_or_ne s [] with rfl | hne
  · simp
  · have hn : (0 : ℚ) < s.length := by
      have := List.length_pos.mpr hne
      exact_mod_cast this
    rw [sum_sq_sub_expand]
    unfold meanL
    have key : -(2 * (s.sum / s.length) * s.sum) + (s.length : ℚ) * (s.sum / s.length) ^ 2 =
        -(s.sum ^ 2 / s.length) := by
      field_simp
      ring
    have hge : 0 ≤ s.sum ^ 2 / (s.length : ℚ) := by positivity
    linarith [key, hge]

lemma sum_take_le_of_nonneg (L : List ℚ) (n : Nat) (h : ∀ x ∈ L, 0 ≤ x) :
    (L.take n).sum ≤ L.sum := by
  conv_rhs => rw [← List.take_append_drop n L]
  rw [List.sum_append]
  have h0 : 0 ≤ (L.drop n).sum :=
    List.sum_nonneg (fun x hx => h x ((List.drop_sublist n L).subset hx))
  linarith

lemma sum_drop_le_of_nonneg (L : List ℚ) (n : Nat) (h : ∀ x ∈ L, 0 ≤ x) :
    (L.drop n).sum ≤ L.sum := by
  conv_rhs => rw [← List.take_append_drop n L]
  rw [List.sum_append]
  have h0 : 0 ≤ (L.take n).sum :=
    List.sum_nonneg (fun x hx => h x ((List.take_sublist n L).subset hx))
  linarith

lemma sum_sq_slice_le (y : List ℚ) (k m : Nat) :
    (((y.drop k).take m).map (fun z => z ^ 2)).sum ≤ (y.map (fun z => z ^ 2)).sum := by
  have hrw : ((y.drop k).take m).map (fun z => z ^ 2) =
      ((y.map (fun z => z ^ 2)).drop k).take m := by
    rw [List.map_take, List.map_drop]
  rw [hrw]
  have hnn : ∀ x ∈ y.map (fun z => z ^ 2), 0 ≤ x := by
    intro x hx
    obtain ⟨z, -, rfl⟩ := List.mem_map.mp hx
    positivity
  have h1 : ∀ x ∈ (y.map (fun z => z ^ 2)).drop k, 0 ≤ x :=
    fun x hx => hnn x ((List.drop_sublist k _).subset hx)
  exact le_trans (sum_take_le_of_nonneg _ m h1) (sum_drop_le_of_nonneg _ k hnn)

lemma sum_sq_standardize_le (v : List ℚ) (sigma : ℚ) (hsig : 0 ≤ sigma)
    (hvar : sigma ^ 2 = npVar v) :
    ((standardize v sigma).map (fun y => y ^ 2)).sum ≤ (v.length : ℚ) := by
  have hd : (0 : ℚ) < sigma + 1 / 1000000 := by linarith
  have hd2 : (0 : ℚ) < (sigma + 1 / 1000000) ^ 2 := by positivity
  have hrw : (standardize v sigma).map (fun y => y ^ 2) =
      (v.map (fun x => (x - meanL v) ^ 2)).map
        (fun z => z / (sigma + 1 / 1000000) ^ 2) := by
    unfold standardize
    rw [List.map_map, List.map_map]
    congr 1
    funext x
    exact div_pow _ _ 2
  rw [hrw, sum_map_div]
  have hdevsum : (v.map (fun x => (x - meanL v) ^ 2)).sum = npVar v * v.length := by
    rcases eq_or_ne v [] with rfl | hne
    · simp [npVar]
    · have hn : ((v.length : ℚ)) ≠ 0 := by simpa using hne
      unfold npVar
      rw [div_mul_cancel₀ _ hn]
  rw [hdevsum, ← hvar]
  have hle : sigma ^ 2 ≤ (sigma + 1 / 1000000) ^ 2 := by nlinarith
  have hn0 : (0 : ℚ) ≤ (v.length : ℚ) := by positivity
  rw [div_le_iff₀ hd2]
  nlinarith

lemma energyVarianceOf_standardize_lt (v : List ℚ) (sigma : ℚ) (hsig : 0 ≤ sigma)
    (hvar : sigma ^ 2 = npVar v) (hlen : v.length = 120) :
    energyVarianceOf (standardize v sigma) < 400000 := by
  unfold energyVarianceOf
  dsimp only
  split_ifs with hl
  · have hB : ((standardize v sigma).map (fun z => z ^ 2)).sum ≤ 120 := by
      have := sum_sq_standardize_le v sigma hsig hvar
      rw [hlen] at this
      exact_mod_cast this
    have hsB : ((((standardize v sigma).drop 88).take 5).map (fun z => z ^ 2)).sum ≤ 120 :=
      le_trans (sum_sq_slice_le _ 88 5) hB
    set s := ((standardize v sigma).drop 88).take 5 with hsdef
    have hdev : (s.map (fun z => (z - meanL s) ^ 2)).sum ≤ 120 :=
      le_trans (sum_sq_dev_le s) hsB
    have hslen : (2 : ℚ) ≤ (s.length : ℚ) := by exact_mod_cast hl
    unfold npVar
    calc (s.map (fun x => (x - meanL s) ^ 2)).sum / (s.length : ℚ)
        ≤ 120 / 2 := div_le_div₀ (by norm_num) hdev (by norm_num) hslen
      _ < 400000 := by norm_num

  · norm_num

/-- C2: on every real request the feature vector passed to the decision
chain is the standardized vector produced by `extract_features` (sigma
being its exact standard deviation), so the energy-variance slice is
bounded below 400000; hence neither the forced-abnormal rules nor the
cough-indicator override can ever fire, and a `crackles` label with
confidence below the 0.9 gate always ends as `normal` — with the fixed
confidence 0.78 unless the Healthy post-processing substitutes the
Healthy probability. -/
theorem C2_crackles_gate_normal (model : List ℚ → List ℚ) (lm : LabelMap) (task : String)
    (preferHF : Bool) (r : RunInput) (noise : Nat → ℚ) (sigma : ℚ) (res : AnalysisResult)
    (hsig : 0 ≤ sigma)
    (hvar : sigma ^ 2 = npVar ((selectFeatures r noise).map nanToNum))
    (hlabel : pyDictMaxKey (predictM lm (extractModel r noise sigma).ind
        (model (prepareFeatures (extractModel r noise sigma).model_features))).class_probs =
      "crackles")
    (hconf : pyDictGet (predictM lm (extractModel r noise sigma).ind
        (model (prepareFeatures (extractModel r noise sigma).model_features))).class_probs
        "crackles" < 9 / 10)
    (hok : runPipeline model lm task preferHF r noise sigma = Except.ok res) :
    res.label = "normal" ∧
      (res.confidence = 78 / 100 ∨ res.confidence = pyDictGet res.predictions "Healthy") := by
  have hok' : decideResult task (extractModel r noise sigma)
      (predictM lm (extractModel r noise sigma).ind
        (model (prepareFeatures (extractModel r noise sigma).model_features))) preferHF =
      Except.ok res := hok
  have hev : energyVarianceOf (extractModel r noise sigma).model_features < 400000 := by
    show energyVarianceOf (standardize ((selectFeatures r noise).map nanToNum) sigma) < 400000
    exact energyVarianceOf_standardize_lt _ sigma hsig hvar
      (by rw [List.length_map, length_selectFeatures])
  have hside : ¬ (energyVarianceOf (extractModel r noise sigma).model_features > 400000 ∧
      spectralSharpnessOf (extractModel r noise sigma).model_features > 7 / 10) := by
    rintro ⟨h1, -⟩
    linarith
  obtain ⟨t, hdc, rfl⟩ := decideResult_ok_elim _ _ _ _ _ hok'
  obtain ⟨-, hhs, -, hprobs⟩ := decideCore_ok_elim _ _ _ _ hdc
  have hgate := decideParts_crackles_gate task (extractModel r noise sigma) _ hlabel hconf hside
  rcases healthyStep_ok_cases _ _ _ hhs with he | he
  · rw [hgate] at he
    exact ⟨congrArg Prod.fst he, Or.inl (congrArg Prod.snd he)⟩
  · refine ⟨congrArg Prod.fst he, Or.inr ?_⟩
    show t.2.1 = pyDictGet t.2.2.2 "Healthy"
    rw [hprobs]
    exact congrArg Prod.snd he

/-- The nominal-path run input for the C2 witness: 88 + 32 + 18 zero
feature values, whose exact standard deviation is 0. -/
def runW : RunInput :=
  { opensmile_features := List.replicate 88 (Val.finite 0)
    additional_features := List.replicate 32 (Val.finite 0)
    basic_features := List.replicate 18 (Val.finite 0)
    concatFailed := false, ind := indW, duration := 3 }

/-- A constant classifier reporting `crackles` at 0.6. -/
def modelW : List ℚ → List ℚ := fun _ => prawW

set_option maxRecDepth 100000 in
/-- Witness for C2: a full pipeline run whose classifier says `crackles`
at 0.6 (below the 0.9 gate) ends with label `normal` at confidence
0.78. -/
theorem C2_witness :
    runPipeline modelW lmW "breath" false runW (fun _ => 0) 0 = Except.ok resW ∧
      resW.label = "normal" ∧
      (resW.confidence = 78 / 100 ∨ resW.confidence = pyDictGet resW.predictions "Healthy") := by
  refine ⟨by with_unfolding_all rfl, ?_⟩
  exact C2_crackles_gate_normal modelW lmW "breath" false runW (fun _ => 0) 0 resW
    (by norm_num) (by with_unfolding_all decide) (by with_unfolding_all rfl)
    (by with_unfolding_all decide) (by with_unfolding_all rfl)

end BreathEasy
